import Mathlib

/-!
Shallow embedding of `threadproc/apple-health-influxdb`.

The repository has two versions of the same single-file Go program:
`src/main.go` (which skips `sleep_analysis` metrics entirely) and
`src/unnamed/part_000` (which parses the sleep date sub-fields).
Definitions without a suffix model `src/unnamed/part_000`; definitions
with the `MainGo` suffix model the `src/main.go` version where the two
differ.  The InfluxDB write API is external; a write is modelled as
collecting the submitted point (writes succeed), since all claims are
about the transcoding logic, not the wire client.
-/

namespace AppleHealth

/-! ### Date parsing: Go `time.Parse` with layout `2006-01-02 15:04:05 -0700`

`time.Parse` with this layout requires: 4-digit year, `-`, 2-digit month,
`-`, 2-digit day, space, 1- or 2-digit hour (Go's `getnum` in non-fixed
mode accepts one digit), `:`, 2-digit minute, `:`, 2-digit second, an
optional fractional-second part (accepted by Go even when absent from the
layout: a `.` or `,` followed by at most nine digits), space, and a
numeric zone `±hhmm`.  After the layout is consumed the input must be
exhausted, and month/day/hour/minute/second are range-checked (day
against the Gregorian month length).  The parsed instant is represented
as Unix seconds plus nanoseconds. -/

/-- Numeric value of a decimal digit character. -/
def digitVal (c : Char) : Nat := c.toNat - 48

/-- Consume exactly `n` decimal digits (Go `getnum`/`getnum4` in fixed
mode), accumulating their value. -/
def takeDigits : Nat → Nat → List Char → Option (Nat × List Char)
  | 0, acc, cs => some (acc, cs)
  | _ + 1, _, [] => none
  | n + 1, acc, c :: cs =>
    if c.isDigit then takeDigits n (acc * 10 + digitVal c) cs else none

/-- Consume one or two decimal digits (Go `getnum` in non-fixed mode, used
for the hour field `15`). -/
def takeHour : List Char → Option (Nat × List Char)
  | [] => none
  | c :: cs =>
    if c.isDigit then
      match cs with
      | c2 :: cs2 =>
        if c2.isDigit then some (digitVal c * 10 + digitVal c2, cs2)
        else some (digitVal c, cs)
      | [] => some (digitVal c, [])
    else none

/-- Consume one expected literal character of the layout. -/
def expectChar (c : Char) : List Char → Option (List Char)
  | [] => none
  | x :: cs => if x = c then some cs else none

/-- Value of a digit list read as a decimal number. -/
def digitsToNat (ds : List Char) : Nat :=
  ds.foldl (fun a c => a * 10 + digitVal c) 0

/-- Optional fractional second after the seconds field: Go accepts `.` or
`,` followed by one to nine digits even though the layout has no
fractional part; ten or more digits is an error.  Returns the
nanosecond count and the remaining input. -/
def takeFrac : List Char → Option (Nat × List Char)
  | c :: c2 :: rest =>
    if (c = '.' ∨ c = ',') ∧ c2.isDigit then
      let ds := List.takeWhile Char.isDigit (c2 :: rest)
      let cs := List.dropWhile Char.isDigit (c2 :: rest)
      if ds.length ≤ 9 then some (digitsToNat ds * 10 ^ (9 - ds.length), cs)
      else none
    else some (0, c :: c2 :: rest)
  | cs => some (0, cs)

/-- Numeric time zone `±hhmm` (layout element `-0700`): a sign and four
digits; the offset in seconds is `±(hh*60+mm)*60` (Go performs no range
check on the zone digits). -/
def takeZone : List Char → Option (Int × List Char)
  | [] => none
  | c :: cs =>
    if c = '+' ∨ c = '-' then
      match takeDigits 2 0 cs with
      | none => none
      | some (hh, cs1) =>
        match takeDigits 2 0 cs1 with
        | none => none
        | some (mm, cs2) =>
          some ((if c = '-' then -1 else 1) * (((hh : Int) * 60 + mm) * 60), cs2)
    else none

/-- Gregorian leap year. -/
def isLeapYear (y : Nat) : Bool :=
  y % 4 = 0 && (y % 100 ≠ 0 || y % 400 = 0)

/-- Days in a month of the proleptic Gregorian calendar (Go `daysIn`). -/
def daysInMonth (y m : Nat) : Nat :=
  if m = 2 then (if isLeapYear y then 29 else 28)
  else if m = 4 ∨ m = 6 ∨ m = 9 ∨ m = 11 then 30
  else 31

/-- Days between 1970-01-01 and the given proleptic-Gregorian date
(civil-calendar day count, using floor divisions). -/
def unixDays (y₀ m d : Int) : Int :=
  let y := if m ≤ 2 then y₀ - 1 else y₀
  let era := y / 400
  let yoe := y - era * 400
  let mp := if m > 2 then m - 3 else m + 9
  let doy := (153 * mp + 2) / 5 + d - 1
  let doe := yoe * 365 + yoe / 4 - yoe / 100 + doy
  era * 146097 + doe - 719468

/-- A parsed `time.Time`: Unix seconds and a nanosecond part. -/
structure GoTime where
  sec : Int
  nsec : Nat
deriving DecidableEq, Repr

/-- The `2006-01-02 ` prefix of the layout: year, month, day and their
separators. -/
def parseDatePart (cs : List Char) : Option (Nat × Nat × Nat × List Char) := do
  let (y, cs) ← takeDigits 4 0 cs
  let cs ← expectChar '-' cs
  let (mo, cs) ← takeDigits 2 0 cs
  let cs ← expectChar '-' cs
  let (d, cs) ← takeDigits 2 0 cs
  let cs ← expectChar ' ' cs
  some (y, mo, d, cs)

/-- The `15:04:05` part of the layout plus the optional fractional
second. -/
def parseTimePart (cs : List Char) :
    Option (Nat × Nat × Nat × Nat × List Char) := do
  let (h, cs) ← takeHour cs
  let cs ← expectChar ':' cs
  let (mi, cs) ← takeDigits 2 0 cs
  let cs ← expectChar ':' cs
  let (se, cs) ← takeDigits 2 0 cs
  let (ns, cs) ← takeFrac cs
  some (h, mi, se, ns, cs)

/-- `time.Parse "2006-01-02 15:04:05 -0700" s`: `none` models a parse
error. -/
def parseGoTime (s : String) : Option GoTime := do
  let (y, mo, d, cs) ← parseDatePart s.data
  let (h, mi, se, ns, cs) ← parseTimePart cs
  let cs ← expectChar ' ' cs
  let (off, cs) ← takeZone cs
  if cs = [] ∧ 1 ≤ mo ∧ mo ≤ 12 ∧ 1 ≤ d ∧ d ≤ daysInMonth y mo
      ∧ h < 24 ∧ mi < 60 ∧ se < 60 then
    some ⟨unixDays y mo d * 86400 + h * 3600 + mi * 60 + se - off, ns⟩
  else none

/-! ### Data model -/

/-- A decoded JSON value, as `encoding/json` unmarshals into
`interface\x7b\x7d`.  Composite values (arrays, objects) are not needed by
any claim and behave exactly like any non-string value in the code, so
they are elided. -/
inductive JValue where
  | str : String → JValue
  | num : ℚ → JValue
  | bool : Bool → JValue
  | null : JValue
deriving DecidableEq, Repr

/-- A value attached to a point field: either the JSON value copied
verbatim, or a parsed `time.Time` (sleep-analysis date sub-fields). -/
inductive FieldValue where
  | raw : JValue → FieldValue
  | time : GoTime → FieldValue
deriving DecidableEq, Repr

/-- An InfluxDB point as built by
`NewPointWithMeasurement(...).SetTime(...).AddTag(...)` plus `AddField`
calls. -/
structure Point where
  measurement : String
  time : GoTime
  tags : List (String × String)
  fields : List (String × FieldValue)
deriving DecidableEq, Repr

/-- A data record: `map[string]interface\x7b\x7d`, modelled as an
association list (Go maps have unique keys; iteration visits every
entry). -/
abbrev DataRecord := List (String × JValue)

/-- First-match lookup in a data record (`datum["date"]`). -/
def recordGet (k : String) : DataRecord → Option JValue
  | [] => none
  | (k', v) :: rest => if k' = k then some v else recordGet k rest

/-- `healthDataMetric`. -/
structure healthDataMetric where
  name : String
  data : List DataRecord
  units : String
deriving DecidableEq, Repr

/-- `healthDataPayload` (workouts are decoded into an empty struct and
never used). -/
structure healthDataPayload where
  workouts : List Unit
  metrics : List healthDataMetric

/-- `sleepAnalysisDateFields` (`src/unnamed/part_000`). -/
def sleepAnalysisDateFields : List String :=
  ["inBedEnd", "inBedStart", "sleepStart", "sleepEnd"]

/-! ### Transcoder -/

/-- `parseMetricDate` (`src/unnamed/part_000`): the value must be a
string and parse under the fixed layout.  (The `time.Now()` returned
alongside a Go error is never used; `Except` drops it.) -/
def parseMetricDate (v : JValue) : Except String GoTime :=
  match v with
  | .str s =>
    match parseGoTime s with
    | some t => .ok t
    | none => .error "parsing time: invalid format"
  | _ => .error "date must be string"

/-- The `for k, v := range datum` field loop of `parseMetricDataPoint`
(`src/unnamed/part_000`): skip `"date"`; for a `sleep_analysis` metric a
key in `sleepAnalysisDateFields` has its value parsed as a date (failure
aborts the record), every other key is added verbatim. -/
def addPointFields (name : String) : DataRecord →
    List (String × FieldValue) → Except String (List (String × FieldValue))
  | [], acc => .ok acc
  | (k, v) :: rest, acc =>
    if k = "date" then addPointFields name rest acc
    else if name = "sleep_analysis" ∧ k ∈ sleepAnalysisDateFields then
      match parseMetricDate v with
      | .error e => .error e
      | .ok t => addPointFields name rest (acc ++ [(k, FieldValue.time t)])
    else addPointFields name rest (acc ++ [(k, FieldValue.raw v)])

/-- `parseMetricDataPoint` (`src/unnamed/part_000`).  `ok none`: the
record had no `"date"` key and was silently skipped; `ok (some p)`: the
point submitted to `WritePoint` (modelled as succeeding); `error`: the
record failed. -/
def parseMetricDataPoint (metric : healthDataMetric) (datum : DataRecord) :
    Except String (Option Point) :=
  match recordGet "date" datum with
  | none => .ok none
  | some date =>
    match parseMetricDate date with
    | .error e => .error e
    | .ok dateTime =>
      match addPointFields metric.name datum [] with
      | .error e => .error e
      | .ok fs =>
        .ok (some { measurement := "apple_health_" ++ metric.name
                    time := dateTime
                    tags := [("units", metric.units)]
                    fields := fs })

/-- The field loop of `parseMetricDataPoint` in `src/main.go`: every
non-`"date"` key is added verbatim, with no sleep special case. -/
def addPointFieldsMainGo : DataRecord → List (String × FieldValue) →
    List (String × FieldValue)
  | [], acc => acc
  | (k, v) :: rest, acc =>
    if k = "date" then addPointFieldsMainGo rest acc
    else addPointFieldsMainGo rest (acc ++ [(k, FieldValue.raw v)])

/-- `parseMetricDataPoint` (`src/main.go`): same date extraction,
verbatim fields only. -/
def parseMetricDataPointMainGo (metric : healthDataMetric)
    (datum : DataRecord) : Except String (Option Point) :=
  match recordGet "date" datum with
  | none => .ok none
  | some date =>
    match parseMetricDate date with
    | .error e => .error e
    | .ok dateTime =>
      .ok (some { measurement := "apple_health_" ++ metric.name
                  time := dateTime
                  tags := [("units", metric.units)]
                  fields := addPointFieldsMainGo datum [] })

/-- The record loop of `incomingMetric`: process records in order,
return the points written so far together with the first error, which
aborts the remaining records. -/
def processMetricData (metric : healthDataMetric) :
    List DataRecord → List Point × Option String
  | [] => ([], none)
  | d :: ds =>
    match parseMetricDataPoint metric d with
    | .error e => ([], some e)
    | .ok none => processMetricData metric ds
    | .ok (some p) =>
      let r := processMetricData metric ds
      (p :: r.1, r.2)

/-- `incomingMetric` (`src/unnamed/part_000`): no data, no action;
otherwise the fail-fast record loop.  Result: points written and the
returned error, if any. -/
def incomingMetric (metric : healthDataMetric) : List Point × Option String :=
  if metric.data.length = 0 then ([], none)
  else processMetricData metric metric.data

/-- The record loop of `incomingMetric` in `src/main.go`. -/
def processMetricDataMainGo (metric : healthDataMetric) :
    List DataRecord → List Point × Option String
  | [] => ([], none)
  | d :: ds =>
    match parseMetricDataPointMainGo metric d with
    | .error e => ([], some e)
    | .ok none => processMetricDataMainGo metric ds
    | .ok (some p) =>
      let r := processMetricDataMainGo metric ds
      (p :: r.1, r.2)

/-- `incomingMetric` (`src/main.go`): additionally returns `nil` early
for a `sleep_analysis` metric, before processing any record. -/
def incomingMetricMainGo (metric : healthDataMetric) :
    List Point × Option String :=
  if metric.data.length = 0 then ([], none)
  else if metric.name = "sleep_analysis" then ([], none)
  else processMetricDataMainGo metric metric.data

/-! ### Ingress handler -/

/-- Outcome of reading and JSON-decoding the request body.  JSON decoding
of raw bytes is external (`encoding/json`); the handler is modelled from
the decode outcome on. -/
inductive RequestBody where
  | readError : RequestBody
  | malformed : RequestBody
  | payload : healthDataPayload → RequestBody

/-- An incoming HTTP request as the handler observes it.
`authorization` is `r.Header.Get("Authorization")`, which is `""` when
the header is absent. -/
structure HttpRequest where
  method : String
  authorization : String
  body : RequestBody

/-- The response: status code and body text. -/
structure HttpResponse where
  status : Nat
  body : String
deriving DecidableEq, Repr

/-- The `for _, metric := range payload.Data.Metrics` loop of
`handleDataPayload`: dispatch every metric in order, concatenating the
written points and accumulating errors into the `hasErrors` flag. -/
def dispatchMetrics : List healthDataMetric → List Point × Bool
  | [] => ([], false)
  | m :: ms =>
    let r := incomingMetric m
    let rest := dispatchMetrics ms
    (r.1 ++ rest.1, r.2.isSome || rest.2)

/-- `handleDataPayload`, given the configured `authenticationToken`.
Returns the response and every point written while handling the
request.  (The `payload.json` debug-file write is an out-of-scope side
effect.)  An unset status at function end is Go's implicit 200 with
empty body. -/
def handleDataPayload (token : String) (req : HttpRequest) :
    HttpResponse × List Point :=
  if req.method ≠ "POST" then (⟨405, ""⟩, [])
  else if req.authorization ≠ token then
    (⟨403, "missing or invalid Authorization header"⟩, [])
  else
    match req.body with
    | .readError => (⟨500, ""⟩, [])
    | .malformed => (⟨400, ""⟩, [])
    | .payload p =>
      let r := dispatchMetrics p.metrics
      ((if r.2 then ⟨500, ""⟩ else ⟨200, ""⟩), r.1)

/-! ### Startup configuration -/

/-- Command-line flags as supplied (or not) on the command line. -/
structure Flags where
  influxHost : Option String
  influxToken : Option String
  influxOrg : Option String
  influxBucket : Option String
  listen : Option String
  authToken : Option String

/-- The configuration a successfully started process runs with. -/
structure StartupConfig where
  host : String
  token : String
  org : String
  bucket : String
  listen : String
  auth : String
deriving DecidableEq, Repr

/-- The flag-validation prefix of `main`: each flag falls back to its
declared default (`""` for token, org and bucket, `"supersecret"` for
the auth token), then `log.Fatal` aborts startup when the InfluxDB
token or organization is empty.  `none` models the process refusing to
start. -/
def goStartup (f : Flags) : Option StartupConfig :=
  let influxToken := f.influxToken.getD ""
  let influxOrg := f.influxOrg.getD ""
  if influxToken = "" then none
  else if influxOrg = "" then none
  else some { host := f.influxHost.getD "localhost:8086"
              token := influxToken
              org := influxOrg
              bucket := f.influxBucket.getD ""
              listen := f.listen.getD "0.0.0.0:8082"
              auth := f.authToken.getD "supersecret" }

/-- The point a record contributes, if any (`none` when the record is
skipped or fails). -/
def emittedPoint (metric : healthDataMetric) (d : DataRecord) : Option Point :=
  match parseMetricDataPoint metric d with
  | .ok op => op
  | .error _ => none

/-! ### Concrete examples used as witnesses -/

/-- The spec's round-trip record:
`{"date": "2024-01-01 08:00:00 +0000", "value": 72}`. -/
def hrRecord : DataRecord :=
  [("date", JValue.str "2024-01-01 08:00:00 +0000"), ("value", JValue.num 72)]

/-- A `heart_rate` metric carrying `hrRecord`. -/
def hrMetric : healthDataMetric :=
  { name := "heart_rate", data := [hrRecord], units := "count/min" }

/-- The point `hrRecord` produces; `1704096000` is the Unix time of
2024-01-01T08:00:00Z. -/
def hrPoint : Point :=
  { measurement := "apple_health_heart_rate"
    time := ⟨1704096000, 0⟩
    tags := [("units", "count/min")]
    fields := [("value", FieldValue.raw (JValue.num 72))] }

/-- A sleep-analysis record with a date sub-field and a scalar field. -/
def slRecord : DataRecord :=
  [("date", JValue.str "2024-01-01 08:00:00 +0000"),
    ("sleepStart", JValue.str "2024-01-01 01:00:00 +0000"),
    ("asleep", JValue.num 7)]

/-- A `sleep_analysis` metric carrying `slRecord`. -/
def slMetric : healthDataMetric :=
  { name := "sleep_analysis", data := [slRecord], units := "hr" }

/-- The point `slRecord` produces under `src/unnamed/part_000`;
`1704070800` is the Unix time of 2024-01-01T01:00:00Z. -/
def slPoint : Point :=
  { measurement := "apple_health_sleep_analysis"
    time := ⟨1704096000, 0⟩
    tags := [("units", "hr")]
    fields := [("sleepStart", FieldValue.time ⟨1704070800, 0⟩),
      ("asleep", FieldValue.raw (JValue.num 7))] }

/-- A metric whose single record has a non-string `"date"`. -/
def badMetric : healthDataMetric :=
  { name := "bad", data := [[("date", JValue.num 3)]], units := "u" }

/-- A payload with one failing metric followed by one succeeding one. -/
def mixedPayload : healthDataPayload :=
  { workouts := [], metrics := [badMetric, hrMetric] }

/-- A metric with a good record followed by a record with a non-string
`"date"`. -/
def failFastMetric : healthDataMetric :=
  { name := "x"
    data := [[("date", JValue.str "2024-01-01 08:00:00 +0000")],
      [("date", JValue.num 3)]]
    units := "u" }

/-! ### Helper lemmas -/

theorem addPointFields_acc_sub (nm : String) :
    ∀ (datum : DataRecord) (acc fs : List (String × FieldValue)),
      addPointFields nm datum acc = .ok fs → ∀ x ∈ acc, x ∈ fs := by
  intro datum
  induction datum with
  | nil =>
    intro acc fs h x hx
    simp only [addPointFields, Except.ok.injEq] at h
    exact h ▸ hx
  | cons kv rest ih =>
    intro acc fs h x hx
    obtain ⟨k, v⟩ := kv
    simp only [addPointFields] at h
    split at h
    · exact ih acc fs h x hx
    · split at h
      · split at h
        · exact absurd h (by simp)
        · exact ih _ fs h x (by simp [hx])
      · exact ih _ fs h x (by simp [hx])

theorem addPointFields_mem_time (datum : DataRecord) :
    ∀ (acc fs : List (String × FieldValue)),
      addPointFields "sleep_analysis" datum acc = .ok fs →
      ∀ k v t, (k, v) ∈ datum → k ∈ sleepAnalysisDateFields →
        parseMetricDate v = .ok t → (k, FieldValue.time t) ∈ fs := by
  induction datum with
  | nil => intro acc fs _ k v t hm; exact absurd hm (by simp)
  | cons kv rest ih =>
    intro acc fs h k v t hm hk hp
    obtain ⟨k', v'⟩ := kv
    simp only [addPointFields] at h
    rcases List.mem_cons.mp hm with heq | hm'
    · obtain ⟨hk1, hv1⟩ := Prod.mk.injEq .. ▸ heq
      subst hk1; subst hv1
      split at h
      · rename_i hdate
        rw [hdate] at hk
        exact absurd hk (by simp [sleepAnalysisDateFields])
      · rw [if_pos (show True ∧ k ∈ sleepAnalysisDateFields from ⟨trivial, hk⟩)] at h
        simp only [hp] at h
        exact addPointFields_acc_sub _ rest _ fs h _ (by simp)
    · split at h
      · exact ih acc fs h k v t hm' hk hp
      · split at h
        · split at h
          · exact absurd h (by simp)
          · exact ih _ fs h k v t hm' hk hp
        · exact ih _ fs h k v t hm' hk hp

theorem addPointFields_mem_raw (nm : String) (datum : DataRecord) :
    ∀ (acc fs : List (String × FieldValue)),
      addPointFields nm datum acc = .ok fs →
      ∀ k v, (k, v) ∈ datum → k ≠ "date" →
        ¬(nm = "sleep_analysis" ∧ k ∈ sleepAnalysisDateFields) →
        (k, FieldValue.raw v) ∈ fs := by
  induction datum with
  | nil => intro acc fs _ k v hm; exact absurd hm (by simp)
  | cons kv rest ih =>
    intro acc fs h k v hm hk hns
    obtain ⟨k', v'⟩ := kv
    simp only [addPointFields] at h
    rcases List.mem_cons.mp hm with heq | hm'
    · obtain ⟨hk1, hv1⟩ := Prod.mk.injEq .. ▸ heq
      subst hk1; subst hv1
      split at h
      · rename_i hdate
        exact absurd hdate hk
      · exact addPointFields_acc_sub _ rest _ fs h _ (by simp)
    · split at h
      · exact ih acc fs h k v hm' hk hns
      · split at h
        · split at h
          · exact absurd h (by simp)
          · exact ih _ fs h k v hm' hk hns
        · exact ih _ fs h k v hm' hk hns

theorem addPointFields_src (nm : String) (datum : DataRecord) :
    ∀ (acc fs : List (String × FieldValue)),
      addPointFields nm datum acc = .ok fs →
      ∀ x ∈ fs, x ∈ acc ∨
        ∃ v, (x.1, v) ∈ datum ∧ x.1 ≠ "date" ∧
          ((¬(nm = "sleep_analysis" ∧ x.1 ∈ sleepAnalysisDateFields) ∧
              x.2 = FieldValue.raw v) ∨
            ∃ t, parseMetricDate v = .ok t ∧ x.2 = FieldValue.time t) := by
  induction datum with
  | nil =>
    intro acc fs h x hx
    simp only [addPointFields, Except.ok.injEq] at h
    exact Or.inl (h ▸ hx)
  | cons kv rest ih =>
    intro acc fs h x hx
    obtain ⟨k', v'⟩ := kv
    simp only [addPointFields] at h
    split at h
    · rcases ih acc fs h x hx with hacc | ⟨v, hv, hrest⟩
      · exact Or.inl hacc
      · exact Or.inr ⟨v, List.mem_cons_of_mem _ hv, hrest⟩
    · rename_i hkdate
      split at h
      · rename_i hsleep
        split at h
        · exact absurd h (by simp)
        · rename_i t hpt
          rcases ih _ fs h x hx with hacc | ⟨v, hv, hrest⟩
          · rcases List.mem_append.mp hacc with h1 | h2
            · exact Or.inl h1
            · refine Or.inr ⟨v', ?_, ?_, Or.inr ⟨t, hpt, ?_⟩⟩
              · rw [List.mem_singleton.mp h2]; simp
              · rw [List.mem_singleton.mp h2]; exact hkdate
              · rw [List.mem_singleton.mp h2]
          · exact Or.inr ⟨v, List.mem_cons_of_mem _ hv, hrest⟩
      · rename_i hnsleep
        rcases ih _ fs h x hx with hacc | ⟨v, hv, hrest⟩
        · rcases List.mem_append.mp hacc with h1 | h2
          · exact Or.inl h1
          · refine Or.inr ⟨v', ?_, ?_, Or.inl ⟨?_, ?_⟩⟩
            · rw [List.mem_singleton.mp h2]; simp
            · rw [List.mem_singleton.mp h2]; exact hkdate
            · rw [List.mem_singleton.mp h2]; exact hnsleep
            · rw [List.mem_singleton.mp h2]
        · exact Or.inr ⟨v, List.mem_cons_of_mem _ hv, hrest⟩

theorem addPointFieldsMainGo_acc_sub :
    ∀ (datum : DataRecord) (acc : List (String × FieldValue)),
      ∀ x ∈ acc, x ∈ addPointFieldsMainGo datum acc := by
  intro datum
  induction datum with
  | nil => intro acc x hx; exact hx
  | cons kv rest ih =>
    intro acc x hx
    obtain ⟨k, v⟩ := kv
    simp only [addPointFieldsMainGo]
    split
    · exact ih acc x hx
    · exact ih _ x (by simp [hx])

theorem addPointFieldsMainGo_src :
    ∀ (datum : DataRecord) (acc : List (String × FieldValue)),
      ∀ x ∈ addPointFieldsMainGo datum acc,
        x ∈ acc ∨ ∃ v, (x.1, v) ∈ datum ∧ x.1 ≠ "date" ∧
          x.2 = FieldValue.raw v := by
  intro datum
  induction datum with
  | nil => intro acc x hx; exact Or.inl hx
  | cons kv rest ih =>
    intro acc x hx
    obtain ⟨k', v'⟩ := kv
    simp only [addPointFieldsMainGo] at hx
    split at hx
    · rcases ih acc x hx with hacc | ⟨v, hv, hrest⟩
      · exact Or.inl hacc
      · exact Or.inr ⟨v, List.mem_cons_of_mem _ hv, hrest⟩
    · rename_i hkdate
      rcases ih _ x hx with hacc | ⟨v, hv, hrest⟩
      · rcases List.mem_append.mp hacc with h1 | h2
        · exact Or.inl h1
        · refine Or.inr ⟨v', ?_, ?_, ?_⟩
          · rw [List.mem_singleton.mp h2]; simp
          · rw [List.mem_singleton.mp h2]; exact hkdate
          · rw [List.mem_singleton.mp h2]
      · exact Or.inr ⟨v, List.mem_cons_of_mem _ hv, hrest⟩

theorem parseMetricDate_err (v : JValue)
    (hbad : (∀ s, v ≠ JValue.str s) ∨
      ∃ s, v = JValue.str s ∧ parseGoTime s = none) :
    ∃ e, parseMetricDate v = .error e := by
  rcases hbad with hns | ⟨s, rfl, hp⟩
  · cases v
    · exact absurd rfl (hns _)
    · exact ⟨_, rfl⟩
    · exact ⟨_, rfl⟩
    · exact ⟨_, rfl⟩
  · refine ⟨"parsing time: invalid format", ?_⟩
    simp [parseMetricDate, hp]

theorem dispatchMetrics_eq (ms : List healthDataMetric) :
    dispatchMetrics ms =
      ((ms.map (fun m => (incomingMetric m).1)).flatten,
        ms.any (fun m => (incomingMetric m).2.isSome)) := by
  induction ms with
  | nil => rfl
  | cons m ms ih => simp [dispatchMetrics, ih]

theorem processMetricData_append (m : healthDataMetric) (d : DataRecord)
    (ds₂ : List DataRecord) (e : String)
    (hd : parseMetricDataPoint m d = .error e) :
    ∀ ds₁ : List DataRecord,
      (∀ d' ∈ ds₁, ∃ op, parseMetricDataPoint m d' = .ok op) →
      processMetricData m (ds₁ ++ d :: ds₂) =
        (ds₁.filterMap (emittedPoint m), some e) := by
  intro ds₁
  induction ds₁ with
  | nil =>
    intro _
    simp only [List.nil_append, List.filterMap_nil, processMetricData, hd]
  | cons d₀ ds₁ ih =>
    intro hok
    obtain ⟨op, hop⟩ := hok d₀ (by simp)
    have hrest := ih (fun d' hd' => hok d' (by simp [hd']))
    cases op with
    | none =>
      simp only [List.cons_append, processMetricData, hop,
        List.filterMap_cons, emittedPoint, List.append_eq, hrest]
    | some p =>
      simp only [List.cons_append, processMetricData, hop,
        List.filterMap_cons, emittedPoint, List.append_eq, hrest]

theorem parseMetricDataPoint_ok_some (m : healthDataMetric) (d : DataRecord)
    (p : Point) (h : parseMetricDataPoint m d = .ok (some p)) :
    ∃ v t fs, recordGet "date" d = some v ∧ parseMetricDate v = .ok t ∧
      addPointFields m.name d [] = .ok fs ∧
      p = ⟨"apple_health_" ++ m.name, t, [("units", m.units)], fs⟩ := by
  unfold parseMetricDataPoint at h
  split at h
  · exact absurd h (by simp)
  · rename_i v hv
    split at h
    · exact absurd h (by simp)
    · rename_i t ht
      split at h
      · exact absurd h (by simp)
      · rename_i fs hfs
        exact ⟨v, t, fs, hv, ht, hfs,
          (Option.some.inj (Except.ok.inj h)).symm⟩

theorem parseMetricDataPointMainGo_ok_some (m : healthDataMetric)
    (d : DataRecord) (p : Point)
    (h : parseMetricDataPointMainGo m d = .ok (some p)) :
    ∃ v t, recordGet "date" d = some v ∧ parseMetricDate v = .ok t ∧
      p = ⟨"apple_health_" ++ m.name, t, [("units", m.units)],
        addPointFieldsMainGo d []⟩ := by
  unfold parseMetricDataPointMainGo at h
  split at h
  · exact absurd h (by simp)
  · rename_i v hv
    split at h
    · exact absurd h (by simp)
    · rename_i t ht
      exact ⟨v, t, hv, ht, (Option.some.inj (Except.ok.inj h)).symm⟩

/-! ### Claims -/

/-- C1: for a metric named `sleep_analysis` (in `src/unnamed/part_000`),
whenever `parseMetricDataPoint` emits a point, every record field named
`inBedEnd`, `inBedStart`, `sleepStart` or `sleepEnd` whose value is a
valid date string in the fixed format appears in the point as the
parsed timestamp value and never as a raw value, and every other
non-`"date"` field is copied verbatim. -/
theorem claim_C1 (m : healthDataMetric) (d : DataRecord) (p : Point)
    (hname : m.name = "sleep_analysis")
    (h : parseMetricDataPoint m d = .ok (some p)) :
    (∀ k v t, (k, v) ∈ d → k ∈ sleepAnalysisDateFields →
      parseMetricDate v = .ok t →
      (k, FieldValue.time t) ∈ p.fields ∧
        ∀ w, (k, FieldValue.raw w) ∉ p.fields) ∧
    (∀ k v, (k, v) ∈ d → k ≠ "date" → k ∉ sleepAnalysisDateFields →
      (k, FieldValue.raw v) ∈ p.fields) := by
  obtain ⟨v₀, t₀, fs, hv₀, ht₀, hfs, rfl⟩ := parseMetricDataPoint_ok_some m d p h
  rw [hname] at hfs
  constructor
  · intro k v t hm hk hp
    constructor
    · exact addPointFields_mem_time d [] fs hfs k v t hm hk hp
    · intro w hw
      rcases addPointFields_src "sleep_analysis" d [] fs hfs _ hw with
        hacc | ⟨v', _, _, hcase⟩
      · exact absurd hacc (by simp)
      · rcases hcase with ⟨hnot, _⟩ | ⟨t', _, habs⟩
        · exact hnot ⟨rfl, hk⟩
        · exact absurd habs (by simp)
  · intro k v hm hk hks
    exact addPointFields_mem_raw _ d [] fs hfs k v hm hk
      (fun hand => hks hand.2)

/-- C1 witness: in the point for `slRecord`, `sleepStart` is stored as
the parsed timestamp and not as its raw string, while `asleep` is
copied verbatim. -/
theorem claim_C1_witness :
    ("sleepStart", FieldValue.time ⟨1704070800, 0⟩) ∈ slPoint.fields ∧
    ("sleepStart",
      FieldValue.raw (JValue.str "2024-01-01 01:00:00 +0000")) ∉ slPoint.fields ∧
    ("asleep", FieldValue.raw (JValue.num 7)) ∈ slPoint.fields := by
  have h := claim_C1 slMetric slRecord slPoint rfl rfl
  have h1 := h.1 "sleepStart" (JValue.str "2024-01-01 01:00:00 +0000")
    ⟨1704070800, 0⟩ (by simp [slRecord]) (by simp [sleepAnalysisDateFields]) rfl
  exact ⟨h1.1, h1.2 _,
    h.2 "asleep" (JValue.num 7) (by simp [slRecord]) (by decide)
      (by simp [sleepAnalysisDateFields])⟩

/-- C2: in the `src/main.go` version, a metric named `sleep_analysis`
with a non-empty data sequence is skipped: `incomingMetric` succeeds
and emits zero points. -/
theorem claim_C2 (m : healthDataMetric) (hname : m.name = "sleep_analysis")
    (hne : m.data ≠ []) : incomingMetricMainGo m = ([], none) := by
  have : m.data.length ≠ 0 := by simpa using hne
  simp [incomingMetricMainGo, hname]

/-- C2 witness: the concrete sleep metric `slMetric` (one record) is
skipped by the `src/main.go` version. -/
theorem claim_C2_witness : incomingMetricMainGo slMetric = ([], none) :=
  claim_C2 slMetric rfl (by simp [slMetric])

/-- C4: per-metric processing (`src/unnamed/part_000` `incomingMetric`)
is fail-fast: with zero records it succeeds with no action, and on the
first record that fails, that record's error is returned and only the
points of the earlier records were written. -/
theorem claim_C4 (m : healthDataMetric) :
    (m.data = [] → incomingMetric m = ([], none)) ∧
    (∀ ds₁ d ds₂ e, m.data = ds₁ ++ d :: ds₂ →
      (∀ d' ∈ ds₁, ∃ op, parseMetricDataPoint m d' = .ok op) →
      parseMetricDataPoint m d = .error e →
      incomingMetric m = (ds₁.filterMap (emittedPoint m), some e)) := by
  constructor
  · intro h; simp [incomingMetric, h]
  · intro ds₁ d ds₂ e hdata hok hd
    unfold incomingMetric
    rw [hdata, if_neg (by simp)]
    exact processMetricData_append m d ds₂ e hd ds₁ hok

/-- C4 witness: for `failFastMetric` (one good record, then one with a
non-string date) processing stops at the second record, after writing
the first record's point. -/
theorem claim_C4_witness :
    incomingMetric failFastMetric =
      ([⟨"apple_health_x", ⟨1704096000, 0⟩, [("units", "u")], []⟩],
        some "date must be string") := by
  have h := (claim_C4 failFastMetric).2
    [[("date", JValue.str "2024-01-01 08:00:00 +0000")]]
    [("date", JValue.num 3)] [] "date must be string" rfl
    (by
      intro d' hd'
      rw [List.mem_singleton.mp hd']
      exact ⟨some ⟨"apple_health_x", ⟨1704096000, 0⟩, [("units", "u")], []⟩, rfl⟩)
    rfl
  exact h.trans (by rfl)

/-- C5: a record with no `"date"` key is silently skipped by both
versions of `parseMetricDataPoint`: success, no point, no write. -/
theorem claim_C5 (m : healthDataMetric) (d : DataRecord)
    (h : recordGet "date" d = none) :
    parseMetricDataPoint m d = .ok none ∧
    parseMetricDataPointMainGo m d = .ok none := by
  constructor
  · simp [parseMetricDataPoint, h]
  · simp [parseMetricDataPointMainGo, h]

/-- C5 witness: a record holding only `"value"` is skipped. -/
theorem claim_C5_witness :
    parseMetricDataPoint ⟨"x", [], "u"⟩ [("value", JValue.num 1)] = .ok none ∧
    parseMetricDataPointMainGo ⟨"x", [], "u"⟩ [("value", JValue.num 1)] =
      .ok none :=
  claim_C5 ⟨"x", [], "u"⟩ [("value", JValue.num 1)] rfl

/-- C6: a record whose `"date"` value is present but is not a string, or
is a string the fixed layout rejects, makes both versions of
`parseMetricDataPoint` fail, emitting no point. -/
theorem claim_C6 (m : healthDataMetric) (d : DataRecord) (v : JValue)
    (hget : recordGet "date" d = some v)
    (hbad : (∀ s, v ≠ JValue.str s) ∨
      ∃ s, v = JValue.str s ∧ parseGoTime s = none) :
    (∃ e, parseMetricDataPoint m d = .error e) ∧
    (∃ e, parseMetricDataPointMainGo m d = .error e) := by
  obtain ⟨e, he⟩ := parseMetricDate_err v hbad
  exact ⟨⟨e, by simp [parseMetricDataPoint, hget, he]⟩,
    ⟨e, by simp [parseMetricDataPointMainGo, hget, he]⟩⟩

/-- C6 witness: a numeric `"date"` value fails in both versions. -/
theorem claim_C6_witness :
    (∃ e, parseMetricDataPoint ⟨"x", [], "u"⟩ [("date", JValue.num 3)] =
      .error e) ∧
    (∃ e, parseMetricDataPointMainGo ⟨"x", [], "u"⟩ [("date", JValue.num 3)] =
      .error e) :=
  claim_C6 ⟨"x", [], "u"⟩ [("date", JValue.num 3)] (JValue.num 3) rfl
    (Or.inl (fun _ h => JValue.noConfusion h))

/-- C3: for every payload on an authenticated POST, the handler
dispatches every metric in array order — the written points are the
concatenation, metric by metric, of each metric's points, even when
some metrics fail — responds 500 exactly when at least one metric
returned an error, and responds 200 with an empty body when none
did. -/
theorem claim_C3 (token : String) (p : healthDataPayload) :
    (handleDataPayload token ⟨"POST", token, RequestBody.payload p⟩).2 =
      (p.metrics.map (fun m => (incomingMetric m).1)).flatten ∧
    ((handleDataPayload token ⟨"POST", token,
        RequestBody.payload p⟩).1.status = 500 ↔
      ∃ m ∈ p.metrics, (incomingMetric m).2 ≠ none) ∧
    ((∀ m ∈ p.metrics, (incomingMetric m).2 = none) →
      (handleDataPayload token ⟨"POST", token, RequestBody.payload p⟩).1 =
        ⟨200, ""⟩) := by
  have hred : handleDataPayload token ⟨"POST", token, RequestBody.payload p⟩ =
      ((if (dispatchMetrics p.metrics).2 then ⟨500, ""⟩ else ⟨200, ""⟩),
        (dispatchMetrics p.metrics).1) := by
    simp [handleDataPayload]
  rw [hred, dispatchMetrics_eq]
  refine ⟨rfl, ?_, ?_⟩
  · constructor
    · intro h5
      by_cases hany : (p.metrics.any fun m => (incomingMetric m).2.isSome) = true
      · obtain ⟨m, hm, hsome⟩ := List.any_eq_true.mp hany
        exact ⟨m, hm, Option.isSome_iff_ne_none.mp hsome⟩
      · rw [Bool.not_eq_true] at hany
        rw [hany] at h5
        exact absurd h5 (by simp)
    · rintro ⟨m, hm, hne⟩
      have hany : (p.metrics.any fun m => (incomingMetric m).2.isSome) = true :=
        List.any_eq_true.mpr ⟨m, hm, Option.isSome_iff_ne_none.mpr hne⟩
      rw [hany]
      rfl
  · intro hnone
    have hany : (p.metrics.any fun m => (incomingMetric m).2.isSome) = false := by
      rw [List.any_eq_false]
      intro m hm
      simp [hnone m hm]
    rw [hany]
    rfl

/-- C3 witness: with one failing metric followed by `hrMetric`, the
succeeding metric's point is still written and the response status
is 500. -/
theorem claim_C3_witness :
    (handleDataPayload "t" ⟨"POST", "t",
      RequestBody.payload mixedPayload⟩).1.status = 500 ∧
    (handleDataPayload "t" ⟨"POST", "t",
      RequestBody.payload mixedPayload⟩).2 = [hrPoint] := by
  have h := claim_C3 "t" mixedPayload
  refine ⟨h.2.1.mpr ⟨badMetric, by simp [mixedPayload], by decide⟩,
    h.1.trans (by rfl)⟩

/-- C7: every point either version of the transcoder emits has
measurement `"apple_health_" ++ metric.Name`, exactly the record's
parsed `"date"` as its one timestamp, the single tag
`units = metric.Units`, and no field named `"date"`. -/
theorem claim_C7 (m : healthDataMetric) (d : DataRecord) (p : Point)
    (h : parseMetricDataPoint m d = .ok (some p) ∨
      parseMetricDataPointMainGo m d = .ok (some p)) :
    p.measurement = "apple_health_" ++ m.name ∧
    p.tags = [("units", m.units)] ∧
    (∃ v t, recordGet "date" d = some v ∧ parseMetricDate v = .ok t ∧
      p.time = t) ∧
    ∀ fv, ("date", fv) ∉ p.fields := by
  rcases h with h | h
  · obtain ⟨v, t, fs, hv, ht, hfs, rfl⟩ := parseMetricDataPoint_ok_some m d p h
    refine ⟨rfl, rfl, ⟨v, t, hv, ht, rfl⟩, ?_⟩
    intro fv hfv
    rcases addPointFields_src m.name d [] fs hfs _ hfv with
      hacc | ⟨v', _, hkd, _⟩
    · exact absurd hacc (by simp)
    · exact hkd rfl
  · obtain ⟨v, t, hv, ht, rfl⟩ := parseMetricDataPointMainGo_ok_some m d p h
    refine ⟨rfl, rfl, ⟨v, t, hv, ht, rfl⟩, ?_⟩
    intro fv hfv
    rcases addPointFieldsMainGo_src d [] _ hfv with hacc | ⟨v', _, hkd, _⟩
    · exact absurd hacc (by simp)
    · exact hkd rfl

/-- C7 witness: the invariants instantiated on the concrete heart-rate
point. -/
theorem claim_C7_witness :
    hrPoint.measurement = "apple_health_" ++ hrMetric.name ∧
    hrPoint.tags = [("units", hrMetric.units)] ∧
    (∃ v t, recordGet "date" hrRecord = some v ∧ parseMetricDate v = .ok t ∧
      hrPoint.time = t) ∧
    ∀ fv, ("date", fv) ∉ hrPoint.fields :=
  claim_C7 hrMetric hrRecord hrPoint (Or.inl rfl)

/-- C8: the spec's round-trip — `hrRecord` under `hrMetric` produces
exactly the point `hrPoint` (measurement `apple_health_heart_rate`,
timestamp 2024-01-01T08:00:00Z, tag `units=count/min`, single field
`value=72`) — and, for every non-sleep metric, every non-`"date"`
field is copied to the point verbatim with its decoded JSON value. -/
theorem claim_C8 :
    incomingMetric hrMetric = ([hrPoint], none) ∧
    ∀ (m : healthDataMetric) (d : DataRecord) (p : Point) (k : String)
      (v : JValue), m.name ≠ "sleep_analysis" →
      parseMetricDataPoint m d = .ok (some p) →
      (k, v) ∈ d → k ≠ "date" → (k, FieldValue.raw v) ∈ p.fields := by
  constructor
  · rfl
  · intro m d p k v hname h hm hk
    obtain ⟨v₀, t₀, fs, _, _, hfs, rfl⟩ := parseMetricDataPoint_ok_some m d p h
    exact addPointFields_mem_raw m.name d [] fs hfs k v hm hk
      (fun hand => hname hand.1)

/-- C8 witness: the verbatim-copy part instantiated on the concrete
heart-rate record. -/
theorem claim_C8_witness :
    ("value", FieldValue.raw (JValue.num 72)) ∈ hrPoint.fields :=
  claim_C8.2 hrMetric hrRecord hrPoint "value" (JValue.num 72)
    (by decide) rfl (by simp [hrRecord]) (by decide)

/-- C9: a POST whose `Authorization` header differs from the configured
secret (an absent header reads as `""`) is answered 403 with the
plain-text body `missing or invalid Authorization header`, zero points
are emitted, and the outcome is the same whatever the request body
holds — the body is never read or parsed. -/
theorem claim_C9 (token : String) (req : HttpRequest)
    (hm : req.method = "POST") (ha : req.authorization ≠ token) :
    handleDataPayload token req =
      (⟨403, "missing or invalid Authorization header"⟩, []) ∧
    ∀ b, handleDataPayload token { req with body := b } =
      handleDataPayload token req := by
  constructor
  · simp [handleDataPayload, hm, ha]
  · intro b
    simp [handleDataPayload, hm, ha]

/-- C9 witness: a request with an absent header (read as `""`) against
secret `"secret"` is rejected with 403 and no points. -/
theorem claim_C9_witness :
    handleDataPayload "secret" ⟨"POST", "", RequestBody.malformed⟩ =
      (⟨403, "missing or invalid Authorization header"⟩, []) :=
  (claim_C9 "secret" ⟨"POST", "", RequestBody.malformed⟩ rfl (by decide)).1

/-- C10 counterexample: with the InfluxDB token and organization
supplied but the bucket and the shared-secret token NOT supplied, the
program still starts (bucket falls back to `""`, the secret to
`"supersecret"`), contradicting the claim that startup is refused
whenever the bucket or shared-secret token is missing. -/
theorem claim_C10_counterexample :
    goStartup ⟨none, some "tok", some "org", none, none, none⟩ =
      some ⟨"localhost:8086", "tok", "org", "", "0.0.0.0:8082",
        "supersecret"⟩ := rfl

/-- C10 amended: at startup only the InfluxDB token and organization
are required — the program refuses to start exactly when either of
them is missing or empty; the host and listen address fall back to
their defaults, the bucket falls back (unchecked) to `""`, and the
shared-secret token falls back to `"supersecret"`. -/
theorem claim_C10 (f : Flags) :
    ((goStartup f).isSome ↔
      f.influxToken.getD "" ≠ "" ∧ f.influxOrg.getD "" ≠ "") ∧
    ∀ c, goStartup f = some c →
      c.host = f.influxHost.getD "localhost:8086" ∧
      c.listen = f.listen.getD "0.0.0.0:8082" ∧
      c.bucket = f.influxBucket.getD "" ∧
      c.auth = f.authToken.getD "supersecret" := by
  constructor
  · by_cases h1 : f.influxToken.getD "" = ""
    · simp [goStartup, h1]
    · by_cases h2 : f.influxOrg.getD "" = ""
      · simp [goStartup, h1, h2]
      · simp [goStartup, h1, h2]
  · intro c hc
    simp only [goStartup] at hc
    split at hc
    · exact absurd hc (by simp)
    · split at hc
      · exact absurd hc (by simp)
      · rw [← Option.some.inj hc]
        exact ⟨rfl, rfl, rfl, rfl⟩

/-- C10 witness: the amended characterization instantiated on a flag
set supplying only the token and the organization. -/
theorem claim_C10_witness :
    (goStartup ⟨none, some "tok", some "org", none, none, none⟩).isSome :=
  (claim_C10 ⟨none, some "tok", some "org", none, none, none⟩).1.mpr
    ⟨by decide, by decide⟩

end AppleHealth
